import Mathlib

/-!
Verification of the NextTrack recommendation core against its code
(src/api/musicbrainz.py and src/api/views.py).

Python strings are modelled as Lean `String` (a wrapper around `List Char`),
with the Python operations `str.lower`, `str.strip`, `x or y`, and the
substring test `a in b` defined explicitly below over the character list.
Python dictionaries parsed from the external JSON index are modelled as
structures with `Option` fields: `none` models an absent key.
-/

namespace NextTrack

/-- Python `str.lower()` on a character list: lowercase every character. -/
def pyLowerL (l : List Char) : List Char := l.map Char.toLower

/-- Python `str.lower()`. -/
def pyLower (s : String) : String := String.mk (pyLowerL s.data)

/-- Whitespace test used by Python `str.strip()`. -/
def wsp (c : Char) : Bool := c.isWhitespace

/-- Drop leading whitespace. -/
def trimL (l : List Char) : List Char := l.dropWhile wsp

/-- Drop trailing whitespace. -/
def trimR (l : List Char) : List Char := (l.reverse.dropWhile wsp).reverse

/-- Python `str.strip()` on a character list. -/
def stripL (l : List Char) : List Char := trimR (trimL l)

/-- Python `str.strip()`. -/
def pyStrip (s : String) : String := String.mk (stripL s.data)

/-- Python `a or b` on strings: the empty string is falsy. -/
def pyOr (a b : String) : String := if a = "" then b else a

/-- Python `o or ""` where `o` is an optional string (absent key gives None). -/
def optStr (o : Option String) : String := o.getD ""

/-- Python substring test `needle in hay` on character lists. -/
def pySubstrL (needle hay : List Char) : Bool :=
  (List.range (hay.length + 1)).any (fun i => needle.isPrefixOf (hay.drop i))

/-- Python substring test `needle in hay`. -/
def pySubstr (needle hay : String) : Bool := pySubstrL needle.data hay.data

theorem dropWhile_idem (p : α → Bool) (l : List α) :
    (l.dropWhile p).dropWhile p = l.dropWhile p := by
  induction l with
  | nil => rfl
  | cons x xs ih =>
    by_cases h : p x <;> simp [List.dropWhile_cons, h, ih]

theorem trimL_trimL (l : List Char) : trimL (trimL l) = trimL l :=
  dropWhile_idem wsp l

theorem trimR_trimR (l : List Char) : trimR (trimR l) = trimR l := by
  simp [trimR, List.reverse_reverse, dropWhile_idem]

/-- A list with no leading whitespace is a fixed point of `trimL`. -/
theorem trimL_eq_self_of_head (l : List Char) (h : l.dropWhile wsp = l) :
    trimL l = l := h

theorem dropWhile_cons_self (p : α → Bool) (a : α) (t : List α)
    (h : (a :: t).dropWhile p = a :: t) : p a = false := by
  by_cases hp : p a
  · exfalso
    rw [List.dropWhile_cons, if_pos hp] at h
    have hlen := congrArg List.length h
    have hle := (List.dropWhile_sublist (l := t) p).length_le
    simp at hlen
    omega
  · simpa using hp

/-- Trimming on the right preserves the no-leading-whitespace property. -/
theorem trimL_trimR_of_trimL (l : List Char) (h : trimL l = l) :
    trimL (trimR l) = trimR l := by
  obtain ⟨w, hw⟩ : ∃ w, l = trimR l ++ w := by
    refine ⟨(l.reverse.takeWhile wsp).reverse, ?_⟩
    have h1 := List.takeWhile_append_dropWhile (p := wsp) (l := l.reverse)
    have h2 := congrArg List.reverse h1
    simp only [List.reverse_append, List.reverse_reverse] at h2
    simpa [trimR] using h2.symm
  cases htr : trimR l with
  | nil => simp [trimL]
  | cons a t =>
    rw [htr] at hw
    have hl : l = a :: (t ++ w) := by simpa using hw
    have hfalse : wsp a = false := by
      apply dropWhile_cons_self wsp a (t ++ w)
      rw [← hl]
      exact h
    simp [trimL, List.dropWhile_cons, hfalse]

theorem stripL_idem (l : List Char) : stripL (stripL l) = stripL l := by
  unfold stripL
  rw [trimL_trimR_of_trimL (trimL l) (trimL_trimL l), trimR_trimR]

theorem pyStrip_idem (s : String) : pyStrip (pyStrip s) = pyStrip s := by
  simp [pyStrip, stripL_idem]

/-! ## Data model

Records parsed from the external search index (JSON dictionaries) are
modelled as structures with `Option` fields; `none` models an absent key.
For the `release-group` value, `none` models both an absent key and a
falsy (empty-dictionary) value, since every use in the code first tests
the value for truthiness; a present truthy dictionary is `some rg`.
-/

/-- The `artist` sub-dictionary of an artist credit. -/
structure ArtistRef where
  id : Option String
  deriving DecidableEq, Repr

/-- One element of the `artist-credit` list. -/
structure AC where
  name : Option String
  artist : Option ArtistRef
  deriving DecidableEq, Repr

/-- A truthy `release-group` dictionary. -/
structure RG where
  id : Option String
  deriving DecidableEq, Repr

/-- One element of the `tags` list. -/
structure MBTag where
  name : Option String
  deriving DecidableEq, Repr

/-- A recording dictionary returned by the external index.
`artistCredit = none` models an absent `artist-credit` key, while
`some l` models a present list `l` (possibly empty: see `acFirst`).
`releases` is consumed only through its length (`release_count`). -/
structure Recording where
  id : Option String
  title : Option String
  artistCredit : Option (List AC)
  releaseGroup : Option RG
  tags : List MBTag
  releases : Option (List Unit)
  deriving DecidableEq, Repr

/-- The empty dictionary default in `rec.get("artist-credit", [{}])[0]`. -/
def emptyAC : AC := ⟨none, none⟩

/-- Faithful model of the access `rec.get("artist-credit", [{}])[0]`:
the default `[{}]` applies only when the key is absent; a present empty
list makes the index `[0]` raise IndexError, modelled as `none`. -/
def acFirst (rec : Recording) : Option AC :=
  match rec.artistCredit with
  | none => some emptyAC
  | some l => l.head?

/-- Total version of `acFirst`, used by the pipeline definitions below.
It agrees with `acFirst` whenever the artist-credit list, when present,
is non-empty (`acFirst_eq_of_wf`); on a present empty list the Python
code raises instead (claim C10). -/
def ac0 (rec : Recording) : AC := (acFirst rec).getD emptyAC

theorem acFirst_eq_of_wf (rec : Recording) (h : rec.artistCredit ≠ some []) :
    acFirst rec = some (ac0 rec) := by
  unfold acFirst ac0 acFirst
  cases hac : rec.artistCredit with
  | none => rfl
  | some l =>
    cases l with
    | nil => exact absurd hac h
    | cons a t => rfl

/-- `_artist_name` (musicbrainz.py line 42) restricted to a given first
artist credit: `(ac.get("name") or "").strip()`. -/
def artistNameA (ac : AC) : String := pyStrip (optStr ac.name)

/-- `_artist_name(rec)` under the totalised accessor `ac0`. -/
def artistNameOf (rec : Recording) : String := artistNameA (ac0 rec)

/-- Faithful (exception-aware) `_artist_name(rec)`: `none` models the
IndexError raised when `artist-credit` is present but empty. -/
def artistNameE (rec : Recording) : Option String :=
  (acFirst rec).map artistNameA

/-- `release_count` (musicbrainz.py line 91): `len(r.get("releases") or [])`. -/
def releaseCount (rec : Recording) : Nat := (rec.releases.getD []).length

/-- The lowered tag-name list of a candidate (views.py line 137). -/
def tagNames (rec : Recording) : List String :=
  rec.tags.map (fun t => pyLower (optStr t.name))

/-- `MOOD_GENRE_MAP` (views.py lines 60 to 67); `.get(mood, [])`. -/
def moodGenreMap (mood : String) : List String :=
  if mood = "happy" then ["pop", "dance", "electronic", "funk"]
  else if mood = "sad" then ["acoustic", "indie", "piano", "alternative"]
  else if mood = "angry" then ["rock", "metal", "punk", "trap"]
  else if mood = "chill" then ["lo-fi", "ambient", "jazz", "r&b"]
  else if mood = "romantic" then ["r&b", "soul", "ballad", "pop"]
  else if mood = "energetic" then ["edm", "hip-hop", "pop", "trap"]
  else []

/-! ## Scoring engine (views.py lines 117 to 153)

The per-request context: `seedTitle` is `(seed_rec.get("title") or "").lower()`
(line 95), `seedArtist` is `seed_rec.get("artist") or ""` (line 96),
`seedRG` the seed release-group, `mood` and `genreHint` are already
lowered (lines 79 and 80). The score is a sum of the five bonus rules and
the duplicate penalty, mirroring the sequential `s += ...` statements. -/

structure ScoreCtx where
  seedTitle : String
  seedArtist : String
  seedRG : Option RG
  mood : String
  genreHint : String
  deriving DecidableEq, Repr

/-- Rule 1 (lines 124 to 126): +5 when the candidate artist name is
non-empty and equals the seed artist name case-insensitively. -/
def artistBonusA (cx : ScoreCtx) (ac : AC) : Int :=
  let an := pyLower (optStr ac.name)
  if an ≠ "" ∧ pyLower cx.seedArtist = an then 5 else 0

def artistBonus (cx : ScoreCtx) (rec : Recording) : Int :=
  artistBonusA cx (ac0 rec)

/-- Rule 2 (lines 128 to 134): +3 when both release-group dictionaries are
truthy and their `id` values are equal (both may be absent: None == None). -/
def albumBonus (cx : ScoreCtx) (rec : Recording) : Int :=
  match rec.releaseGroup, cx.seedRG with
  | some rg, some srg => if rg.id = srg.id then 3 else 0
  | _, _ => 0

/-- Rule 3 (lines 138 to 139): +2 when the genre hint is non-empty and
appears in the candidate tag list. -/
def genreBonus (cx : ScoreCtx) (rec : Recording) : Int :=
  if cx.genreHint ≠ "" ∧ cx.genreHint ∈ tagNames rec then 2 else 0

/-- Rule 4 (lines 140 to 143): the `for g in genre_prefs` loop with
`break`: +2 for the first mood-mapped genre found among the tags. -/
def moodBonus (cx : ScoreCtx) (rec : Recording) : Int :=
  match (moodGenreMap cx.mood).find? (fun g => (tagNames rec).contains g) with
  | some _ => 2
  | none => 0

/-- The combined contribution of rules 3 and 4 (the two tag rules). -/
def tagBonus (cx : ScoreCtx) (rec : Recording) : Int :=
  genreBonus cx rec + moodBonus cx rec

/-- Rule 5 (lines 146 to 147): +1 when the genre hint is non-empty and a
substring of the lowered candidate title. -/
def titleHintBonus (cx : ScoreCtx) (rec : Recording) : Int :=
  if cx.genreHint ≠ "" ∧ pySubstr cx.genreHint (pyLower (optStr rec.title)) then 1 else 0

/-- Rule 6 (lines 150 to 151): -10 when the lowered candidate title equals
the lowered seed title. -/
def dupPenalty (cx : ScoreCtx) (rec : Recording) : Int :=
  if pyLower (optStr rec.title) = cx.seedTitle then -10 else 0

/-- `score(rec)` (views.py lines 117 to 153). -/
def score (cx : ScoreCtx) (rec : Recording) : Int :=
  artistBonus cx rec + albumBonus cx rec + tagBonus cx rec
    + titleHintBonus cx rec + dupPenalty cx rec

/-- Faithful (exception-aware) score: `none` models the IndexError raised
at line 121 when `artist-credit` is present but empty. -/
def scoreE (cx : ScoreCtx) (rec : Recording) : Option Int :=
  (acFirst rec).map (fun ac =>
    artistBonusA cx ac + albumBonus cx rec + tagBonus cx rec
      + titleHintBonus cx rec + dupPenalty cx rec)

theorem scoreE_eq_of_wf (cx : ScoreCtx) (rec : Recording)
    (h : rec.artistCredit ≠ some []) : scoreE cx rec = some (score cx rec) := by
  unfold scoreE score artistBonus
  rw [acFirst_eq_of_wf rec h]
  rfl

/-! ## Claim C6 -/

/-- A candidate whose tag list contains the genre hint, which is also a
mood-mapped genre for mood `happy`. -/
def c6Rec : Recording :=
  { id := none, title := some "x", artistCredit := none,
    releaseGroup := none, tags := [⟨some "pop"⟩], releases := none }

def c6Ctx : ScoreCtx :=
  { seedTitle := "bad guy", seedArtist := "a", seedRG := none,
    mood := "happy", genreHint := "pop" }

theorem moodBonus_le_two (cx : ScoreCtx) (rec : Recording) :
    moodBonus cx rec = 0 ∨ moodBonus cx rec = 2 := by
  unfold moodBonus
  cases h : (moodGenreMap cx.mood).find? (fun g => (tagNames rec).contains g) <;> simp

/-- C6 counterexample: at this concrete candidate and preferences both the
genre-hint rule and the mood rule fire, and their combined contribution is
+4, not the +2 the claim states. -/
theorem c6_counterexample :
    c6Ctx.genreHint ∈ tagNames c6Rec
    ∧ (∃ g ∈ moodGenreMap c6Ctx.mood, g ∈ tagNames c6Rec)
    ∧ tagBonus c6Ctx c6Rec = 4
    ∧ tagBonus c6Ctx c6Rec ≠ 2 := by
  refine ⟨by decide, ⟨"pop", by decide, by decide⟩, by decide, by decide⟩

/-- C6 (amended): the +2 genre-hint bonus and the +2 mood bonus are
additive: whenever the genre hint is non-empty and appears among the tags
and some mood-mapped genre appears among the tags, the combined
contribution of the two tag rules is exactly +4; within the mood rule only
the first matching genre counts, so that rule contributes exactly +2. -/
theorem c6_tag_rules_additive (cx : ScoreCtx) (rec : Recording)
    (h1 : cx.genreHint ≠ "")
    (h2 : cx.genreHint ∈ tagNames rec)
    (h3 : ∃ g ∈ moodGenreMap cx.mood, g ∈ tagNames rec) :
    tagBonus cx rec = 4 ∧ moodBonus cx rec = 2 := by
  have hmood : moodBonus cx rec = 2 := by
    unfold moodBonus
    cases hf : (moodGenreMap cx.mood).find? (fun g => (tagNames rec).contains g) with
    | some g => simp
    | none =>
      exfalso
      obtain ⟨g, hg, hgt⟩ := h3
      have := List.find?_eq_none.mp hf g hg
      simp [List.contains_eq_any_beq] at this
      exact this hgt
  constructor
  · unfold tagBonus genreBonus
    rw [if_pos ⟨h1, h2⟩, hmood]
    norm_num
  · exact hmood

/-- C6 witness: the amended theorem applied at the concrete candidate. -/
theorem c6_witness :
    tagBonus c6Ctx c6Rec = 4 ∧ moodBonus c6Ctx c6Rec = 2 :=
  c6_tag_rules_additive c6Ctx c6Rec (by decide) (by decide)
    ⟨"pop", by decide, by decide⟩

/-! ## Claim C7: candidate-fetch fallback (views.py lines 109 to 114)

The fallback draw `random.randint(0, 200)` is modelled by an explicit
offset argument `off` together with the support of the draw: in Python,
`random.randint(a, b)` returns an integer N with `a <= N <= b`, both
endpoints included. -/

/-- The set of values `random.randint(a, b)` can return (both endpoints
included, per the Python library semantics of the call at line 111). -/
def pyRandintSupport (a b : Nat) : Finset Nat := Finset.Icc a b

/-- Lines 110 to 114: when fewer than 10 primary results were fetched and
`randomize` is set, one additional query on the original input title is
issued at offset `off` and appended; otherwise no fallback query runs.
The second component records the offset of the issued fallback query
(`none` when no fallback query was issued). -/
def fetchWithFallback (primary : List Recording) (randomize : Bool)
    (fallbackAt : Nat → List Recording) (off : Nat) :
    List Recording × Option Nat :=
  if primary.length < 10 ∧ randomize = true then
    (primary ++ fallbackAt off, some off)
  else (primary, none)

/-- C7 counterexample: the offset 200 is in the support of the draw at
line 111 and a fallback query with offset 200 can be issued, refuting the
claim that the offset always lies in the half-open interval [0, 200). -/
theorem c7_counterexample :
    200 ∈ pyRandintSupport 0 200
    ∧ (fetchWithFallback [] true (fun _ => []) 200).2 = some 200
    ∧ ¬ (200 < 200) := by
  refine ⟨by decide, by decide, by decide⟩

/-- C7 (amended): whenever the primary fetch returns fewer than 10 results
and `randomize` is true, exactly one additional query is issued using the
original free-text title, at an offset drawn from the closed interval
[0, 200] (both endpoints included), and its results are appended; in every
other case no fallback query is issued. -/
theorem c7_fallback_condition (primary : List Recording) (randomize : Bool)
    (fallbackAt : Nat → List Recording) (off : Nat)
    (hoff : off ∈ pyRandintSupport 0 200) :
    off ≤ 200
    ∧ (primary.length < 10 ∧ randomize = true →
        fetchWithFallback primary randomize fallbackAt off
          = (primary ++ fallbackAt off, some off))
    ∧ (¬ (primary.length < 10 ∧ randomize = true) →
        fetchWithFallback primary randomize fallbackAt off = (primary, none)) := by
  refine ⟨?_, ?_, ?_⟩
  · exact (Finset.mem_Icc.mp hoff).2
  · intro h
    simp [fetchWithFallback, h]
  · intro h
    simp only [fetchWithFallback, if_neg h]

/-- C7 witness: the amended theorem applied at a concrete run. -/
theorem c7_witness :
    (7 : Nat) ≤ 200
    ∧ (([] : List Recording).length < 10 ∧ true = true →
        fetchWithFallback [] true (fun _ => [c6Rec]) 7 = ([] ++ [c6Rec], some 7))
    ∧ (¬ (([] : List Recording).length < 10 ∧ true = true) →
        fetchWithFallback [] true (fun _ => [c6Rec]) 7 = ([], none)) :=
  c7_fallback_condition [] true (fun _ => [c6Rec]) 7 (by decide)

/-! ## External search client (musicbrainz.py)

`_mb_get` is modelled against an abstract network oracle
`net : Nat -> Except E J` giving the outcome of the k-th attempt.
`requests.RequestException` values are the `E` type; a successful parsed
JSON body is the `J` type. `time.sleep(0.5)` runs after every failed
attempt; sleeps are counted by `mbGetSleeps`, each worth `retryDelay`
time units. The md5 hash and the Django cache are abstract parameters. -/

def RETRIES : Nat := 2

/-- Each `time.sleep(0.5)` pause, in time units. -/
def retryDelay : ℚ := 1 / 2

/-- The retry loop of `_mb_get` (lines 20 to 35): attempt `i`; on success
return the body, on failure either retry at `i + 1` (when retries remain)
or raise the last error. -/
def mbGetGo {E J : Type} (net : Nat → Except E J) : Nat → Nat → Except E J
  | i, r =>
    match net i, r with
    | .ok j, _ => .ok j
    | .error e, 0 => .error e
    | .error _, r' + 1 => mbGetGo net (i + 1) r'

/-- `_mb_get`: run the loop with the full retry budget. -/
def mbGet {E J : Type} (net : Nat → Except E J) : Except E J :=
  mbGetGo net 0 RETRIES

/-- Number of network attempts the loop makes. -/
def mbGetCountGo {E J : Type} (net : Nat → Except E J) : Nat → Nat → Nat
  | i, r =>
    match net i, r with
    | .ok _, _ => 1
    | .error _, 0 => 1
    | .error _, r' + 1 => 1 + mbGetCountGo net (i + 1) r'

def mbGetAttempts {E J : Type} (net : Nat → Except E J) : Nat :=
  mbGetCountGo net 0 RETRIES

/-- Number of `time.sleep(0.5)` pauses the loop performs (one after every
failed attempt, line 34). -/
def mbGetSleepsGo {E J : Type} (net : Nat → Except E J) : Nat → Nat → Nat
  | i, r =>
    match net i, r with
    | .ok _, _ => 0
    | .error _, 0 => 1
    | .error _, r' + 1 => 1 + mbGetSleepsGo net (i + 1) r'

def mbGetSleeps {E J : Type} (net : Nat → Except E J) : Nat :=
  mbGetSleepsGo net 0 RETRIES

theorem mbGetCountGo_le {E J : Type} (net : Nat → Except E J) :
    ∀ r i, mbGetCountGo net i r ≤ r + 1 := by
  intro r
  induction r with
  | zero =>
    intro i
    unfold mbGetCountGo
    cases net i <;> simp
  | succ r' ih =>
    intro i
    unfold mbGetCountGo
    cases net i with
    | ok j => simp
    | error e =>
      simp only
      have := ih (i + 1)
      omega

theorem mbGetGo_fail {E J : Type} (net : Nat → Except E J) (es : Nat → E)
    (hfail : ∀ k, net k = Except.error (es k)) :
    ∀ r i, mbGetGo net i r = Except.error (es (i + r)) := by
  intro r
  induction r with
  | zero => intro i; unfold mbGetGo; rw [hfail i]; simp
  | succ r' ih =>
    intro i
    unfold mbGetGo
    rw [hfail i]
    simp only
    rw [ih (i + 1)]
    have h2 : i + 1 + r' = i + (r' + 1) := by omega
    rw [h2]

theorem mbGetCountGo_fail {E J : Type} (net : Nat → Except E J) (es : Nat → E)
    (hfail : ∀ k, net k = Except.error (es k)) :
    ∀ r i, mbGetCountGo net i r = r + 1 := by
  intro r
  induction r with
  | zero => intro i; unfold mbGetCountGo; rw [hfail i]
  | succ r' ih =>
    intro i
    unfold mbGetCountGo
    rw [hfail i]
    simp only
    rw [ih (i + 1)]
    omega

theorem mbGetSleepsGo_fail {E J : Type} (net : Nat → Except E J) (es : Nat → E)
    (hfail : ∀ k, net k = Except.error (es k)) :
    ∀ r i, mbGetSleepsGo net i r = r + 1 := by
  intro r
  induction r with
  | zero => intro i; unfold mbGetSleepsGo; rw [hfail i]
  | succ r' ih =>
    intro i
    unfold mbGetSleepsGo
    rw [hfail i]
    simp only
    rw [ih (i + 1)]
    omega

/-- The parsed JSON body of a search response: only the `recordings` key
is consumed (`data.get("recordings") or []`). -/
structure MBData where
  recordings : Option (List Recording)
  deriving DecidableEq, Repr

/-- `_artist_mbid` (lines 45 to 48) on a first artist credit:
`((ac.get("artist") or \x7b\x7d).get("id") or "").strip()`. -/
def artistMbidA (ac : AC) : String := pyStrip (optStr ((ac.artist.getD ⟨none⟩).id))

def artistMbidOf (rec : Recording) : String := artistMbidA (ac0 rec)

/-- The resolved-seed dictionary built at lines 96 to 102. -/
structure SeedOut where
  title : Option String
  artist : String
  artistMbid : String
  trackId : Option String
  releaseGroup : Option RG
  deriving DecidableEq, Repr

def mkSeedOut (best : Recording) : SeedOut :=
  { title := best.title,
    artist := pyOr (artistNameOf best) "Unknown Artist",
    artistMbid := pyOr (artistMbidOf best) "",
    trackId := best.id,
    releaseGroup := best.releaseGroup }

/-- Python `max(recs, key=f)` accumulator: replace the current best only
on a strictly greater key, so the first maximal element wins. -/
def pyMaxGo (f : α → Nat) (b : α) : List α → α
  | [] => b
  | y :: ys => pyMaxGo f (if f b < f y then y else b) ys

/-- Python `max(l, key=f)`; `none` on the empty list. -/
def pyMax (f : α → Nat) : List α → Option α
  | [] => none
  | x :: xs => some (pyMaxGo f x xs)

/-- The selection step of `search_musicbrainz_track` (lines 84 to 94):
optionally restrict to exact case-insensitive artist matches, then take
the recording with the most releases (first one wins on ties). -/
def pickBest (rawArtist : String) (recs : List Recording) : Option Recording :=
  let base :=
    if rawArtist ≠ "" then
      let cand := recs.filter (fun r => pyLower (artistNameOf r) = pyLower rawArtist)
      if cand = [] then recs else cand
    else recs
  pyMax releaseCount base

/-- `_hash_key` (lines 16 to 18) with the md5 hexdigest abstracted. -/
def hashKey (pre : String) (md5 : String → String) (raw : String) : String :=
  pre ++ ":" ++ md5 raw

/-- The raw string hashed for the seed-resolution cache key (line 63). -/
def seedCacheRaw (rawTitle rawArtist : String) : String :=
  pyLower rawTitle ++ "|" ++ pyLower rawArtist

/-- `search_musicbrainz_track` (lines 50 to 104). The Lucene query string
sent over the network is in the abstract oracle `net`; the cache write at
line 103 has no observable effect inside one call and is not modelled. -/
def searchTrack {E : Type} (md5 : String → String)
    (cacheGet : String → Option SeedOut) (net : Nat → Except E MBData)
    (trackName artistHint : String) : Option SeedOut :=
  if trackName = "" then none
  else
    let rawTitle := pyStrip trackName
    let rawArtist := pyStrip artistHint
    let key := hashKey "mbz:first" md5 (seedCacheRaw rawTitle rawArtist)
    match cacheGet key with
    | some v => some v
    | none =>
      match mbGet net with
      | .error _ => none
      | .ok data =>
        let recs := data.recordings.getD []
        if recs = [] then none
        else (pickBest rawArtist recs).map mkSeedOut

/-- Decimal digit character. -/
def decDigit : Nat → Char
  | 0 => '0' | 1 => '1' | 2 => '2' | 3 => '3' | 4 => '4'
  | 5 => '5' | 6 => '6' | 7 => '7' | 8 => '8' | _ => '9'

/-- Decimal rendering of a natural number (the integer formatting the
f-string at line 111 applies to `limit` and `offset`), most significant
digit first; fuel-structural so that it evaluates by kernel reduction. -/
def natToDecGo : Nat → Nat → List Char
  | 0, _ => []
  | fuel + 1, n =>
    if n < 10 then [decDigit n]
    else natToDecGo fuel (n / 10) ++ [decDigit (n % 10)]

def natToDec (n : Nat) : List Char := natToDecGo (n + 1) n

/-- Value recovery for decimal renderings. -/
def decVal (l : List Char) : Nat :=
  l.foldl (fun a c => a * 10 + (c.toNat - 48)) 0

/-- The raw string hashed for the generic recording-search cache key
(line 111): the decimal limit, the decimal offset, and the query,
separated by colons. -/
def recsCacheRaw (limit offset : Nat) (query : String) : String :=
  String.mk (natToDec limit) ++ ":" ++ String.mk (natToDec offset) ++ ":" ++ query

/-- `search_musicbrainz_recordings` (lines 107 to 128). A cached empty
list is falsy in Python, so it does not short-circuit the fetch. -/
def searchRecs {E : Type} (md5 : String → String)
    (cacheGet : String → Option (List Recording)) (net : Nat → Except E MBData)
    (query : String) (limit offset : Nat) : List Recording :=
  if query = "" then []
  else
    let key := hashKey "mbz:recs" md5 (recsCacheRaw limit offset query)
    let cached := (cacheGet key).getD []
    if cached ≠ [] then cached
    else
      match mbGet net with
      | .error _ => []
      | .ok data => data.recordings.getD []

/-- C4: the retry loop makes at most `RETRIES + 1 = 3` attempts; when all
attempts fail it performs exactly 3 attempts with a 0.5-unit sleep after
each failure (hence between consecutive attempts) and raises the error of
the last attempt; both callers catch that error and return the neutral
empty result (`none`, respectively `[]`). -/
theorem c4_retry_and_degrade {E : Type} (net : Nat → Except E MBData)
    (es : Nat → E) (md5 : String → String)
    (cg1 : String → Option SeedOut) (cg2 : String → Option (List Recording))
    (tn ah q : String) (limit offset : Nat)
    (hfail : ∀ k, net k = Except.error (es k))
    (hmiss1 : ∀ k, cg1 k = none) (hmiss2 : ∀ k, cg2 k = none) :
    (∀ net' : Nat → Except E MBData, mbGetAttempts net' ≤ RETRIES + 1)
    ∧ RETRIES + 1 = 3
    ∧ mbGet net = Except.error (es RETRIES)
    ∧ mbGetAttempts net = 3
    ∧ mbGetSleeps net = 3
    ∧ (mbGetSleeps net : ℚ) * retryDelay = 3 / 2
    ∧ searchTrack md5 cg1 net tn ah = none
    ∧ searchRecs md5 cg2 net q limit offset = [] := by
  have hget : mbGet net = Except.error (es RETRIES) := by
    unfold mbGet
    rw [mbGetGo_fail net es hfail RETRIES 0]
    simp
  refine ⟨fun net' => mbGetCountGo_le net' RETRIES 0, by decide, hget, ?_, ?_, ?_, ?_, ?_⟩
  · unfold mbGetAttempts
    rw [mbGetCountGo_fail net es hfail RETRIES 0]
    decide
  · unfold mbGetSleeps
    rw [mbGetSleepsGo_fail net es hfail RETRIES 0]
    decide
  · unfold mbGetSleeps
    rw [mbGetSleepsGo_fail net es hfail RETRIES 0]
    norm_num [retryDelay, RETRIES]
  · simp [searchTrack, hmiss1, hget]
  · simp [searchRecs, hmiss2, hget]

/-- C4 witness: the theorem applied to a network oracle whose three
attempts all fail. -/
theorem c4_witness :
    (∀ net' : Nat → Except Nat MBData, mbGetAttempts net' ≤ RETRIES + 1)
    ∧ RETRIES + 1 = 3
    ∧ mbGet (fun k => (Except.error k : Except Nat MBData)) = Except.error RETRIES
    ∧ mbGetAttempts (fun k => (Except.error k : Except Nat MBData)) = 3
    ∧ mbGetSleeps (fun k => (Except.error k : Except Nat MBData)) = 3
    ∧ (mbGetSleeps (fun k => (Except.error k : Except Nat MBData)) : ℚ) * retryDelay = 3 / 2
    ∧ searchTrack (E := Nat) id (fun _ => none)
        (fun k => Except.error k) "x" "" = none
    ∧ searchRecs (E := Nat) id (fun _ => none)
        (fun k => Except.error k) "q" 25 0 = [] :=
  c4_retry_and_degrade (fun k => Except.error k) (fun k => k) id
    (fun _ => none) (fun _ => none) "x" "" "q" 25 0
    (fun _ => rfl) (fun _ => rfl) (fun _ => rfl)

/-! ## Claim C5: seed-resolver selection -/

theorem find?_congr_mem {α : Type} {p q : α → Bool} :
    ∀ {l : List α}, (∀ a ∈ l, p a = q a) → l.find? p = l.find? q := by
  intro l
  induction l with
  | nil => intro _; rfl
  | cons x xs ih =>
    intro h
    rw [List.find?_cons, List.find?_cons, h x (by simp)]
    cases hq : q x
    · exact ih (fun a ha => h a (by simp [ha]))
    · rfl

/-- The predicate "r attains the maximal key among l". -/
def isMaxIn (f : α → Nat) (l : List α) (r : α) : Bool :=
  l.all (fun y => f y ≤ f r)

theorem isMaxIn_iff (f : α → Nat) (l : List α) (r : α) :
    isMaxIn f l r = true ↔ ∀ y ∈ l, f y ≤ f r := by
  simp [isMaxIn, List.all_eq_true]

/-- The Python `max(·, key=f)` accumulator run on `b :: l` returns the
first element of `b :: l` attaining the maximal key. -/
theorem pyMaxGo_find {α : Type} (f : α → Nat) :
    ∀ (l : List α) (b : α),
      (b :: l).find? (isMaxIn f (b :: l)) = some (pyMaxGo f b l) := by
  intro l
  induction l with
  | nil =>
    intro b
    rw [List.find?_cons_of_pos (p := isMaxIn f [b]) _ (by simp [isMaxIn])]
    rfl
  | cons y ys ih =>
    intro b
    by_cases hby : f b < f y
    · -- the head is strictly beaten by y, so it fails the predicate
      have hPb : ¬ (isMaxIn f (b :: y :: ys) b = true) := by
        rw [isMaxIn_iff]
        intro hall
        have := hall y (by simp)
        omega
      rw [List.find?_cons_of_neg (p := isMaxIn f (b :: y :: ys)) _ hPb]
      have hcongr :
          (y :: ys).find? (isMaxIn f (b :: y :: ys))
            = (y :: ys).find? (isMaxIn f (y :: ys)) := by
        apply find?_congr_mem
        intro a _
        rw [Bool.eq_iff_iff, isMaxIn_iff, isMaxIn_iff]
        constructor
        · intro hall z hz
          exact hall z (by simp [hz])
        · intro hall z hz
          rcases List.mem_cons.mp hz with h1 | h1
          · subst h1
            have := hall y (by simp)
            omega
          · exact hall z h1
      rw [hcongr, ih y]
      simp only [pyMaxGo, if_pos hby]
    · -- the head survives against y
      have hyb : f y ≤ f b := by omega
      have hrhs : pyMaxGo f b (y :: ys) = pyMaxGo f b ys := by
        simp only [pyMaxGo, if_neg hby]
      rw [hrhs, ← ih b]
      by_cases hQb : isMaxIn f (b :: ys) b = true
      · have hPb : isMaxIn f (b :: y :: ys) b = true := by
          rw [isMaxIn_iff] at hQb ⊢
          intro z hz
          rcases List.mem_cons.mp hz with h1 | h1
          · subst h1; exact Nat.le_refl _
          · rcases List.mem_cons.mp h1 with h2 | h2
            · subst h2; exact hyb
            · exact hQb z (by simp [h2])
        rw [List.find?_cons_of_pos (p := isMaxIn f (b :: y :: ys)) _ hPb,
            List.find?_cons_of_pos (p := isMaxIn f (b :: ys)) _ hQb]
      · have hPb : ¬ (isMaxIn f (b :: y :: ys) b = true) := by
          rw [isMaxIn_iff] at hQb ⊢
          intro hall
          apply hQb
          intro z hz
          rcases List.mem_cons.mp hz with h1 | h1
          · subst h1; exact Nat.le_refl _
          · exact hall z (by simp [h1])
        have hPy : ¬ (isMaxIn f (b :: y :: ys) y = true) := by
          rw [isMaxIn_iff] at hQb ⊢
          intro hall
          apply hQb
          have hby2 : f b ≤ f y := hall b (by simp)
          intro z hz
          rcases List.mem_cons.mp hz with h1 | h1
          · subst h1; exact Nat.le_refl _
          · have := hall z (by simp [h1])
            omega
        rw [List.find?_cons_of_neg (p := isMaxIn f (b :: y :: ys)) _ hPb,
            List.find?_cons_of_neg (p := isMaxIn f (b :: y :: ys)) _ hPy,
            List.find?_cons_of_neg (p := isMaxIn f (b :: ys)) _ hQb]
        apply find?_congr_mem
        intro a ha
        rw [Bool.eq_iff_iff, isMaxIn_iff, isMaxIn_iff]
        constructor
        · intro hall z hz
          rcases List.mem_cons.mp hz with h1 | h1
          · rw [h1]; exact hall b (by simp)
          · exact hall z (by simp [h1])
        · intro hall z hz
          rcases List.mem_cons.mp hz with h1 | h1
          · rw [h1]; exact hall b (by simp)
          · rcases List.mem_cons.mp h1 with h2 | h2
            · rw [h2]
              have h3 := hall b (by simp)
              omega
            · exact hall z (by simp [h2])

/-- `pyMax f` returns the first element attaining the maximal key. -/
theorem pyMax_eq_find {α : Type} (f : α → Nat) (l : List α) :
    pyMax f l = l.find? (isMaxIn f l) := by
  cases l with
  | nil => rfl
  | cons x xs => rw [pyMax, pyMaxGo_find f xs x]

/-- Follows the wording of the spec (section 4.3): filter to exact
case-insensitive artist matches when the hint is non-empty and at least
one candidate matches, else use the full list; then pick the first
candidate, in the order returned by the external index, among those with
the greatest number of associated releases. -/
def resolverChoiceSpec (rawArtist : String) (recs : List Recording) : Option Recording :=
  let matching := recs.filter (fun r => pyLower (artistNameOf r) = pyLower rawArtist)
  let base := if rawArtist ≠ "" ∧ matching ≠ [] then matching else recs
  base.find? (isMaxIn releaseCount base)

/-- C5: the selection step of `search_musicbrainz_track` is exactly the
spec-described choice: restrict to case-insensitive artist matches when
the non-empty hint matches at least one candidate, otherwise use the full
list, and return the first candidate with the maximal release count; and
on a non-empty candidate list a candidate is always selected. -/
theorem c5_resolver_selection (rawArtist : String) (recs : List Recording) :
    pickBest rawArtist recs = resolverChoiceSpec rawArtist recs
    ∧ ((pickBest rawArtist recs).isSome ↔ recs ≠ []) := by
  constructor
  · unfold pickBest resolverChoiceSpec
    by_cases ha : rawArtist = ""
    · simp only [ha, ne_eq, not_true_eq_false, if_false, false_and, ite_false]
      exact pyMax_eq_find releaseCount recs
    · by_cases hc :
        recs.filter (fun r => pyLower (artistNameOf r) = pyLower rawArtist) = []
      · simp only [ha, hc, ne_eq, not_false_eq_true, if_true, ite_true,
          not_true_eq_false, and_false, if_false]
        exact pyMax_eq_find releaseCount recs
      · simp only [ha, hc, ne_eq, not_false_eq_true, if_true, if_false,
          and_true, ite_true]
        exact pyMax_eq_find releaseCount _
  · unfold pickBest
    by_cases hr : recs = []
    · subst hr
      simp [pyMax]
    · constructor
      · intro _; exact hr
      · intro _
        by_cases ha : rawArtist = ""
        · simp only [ha, ne_eq, not_true_eq_false, if_false]
          cases recs with
          | nil => exact absurd rfl hr
          | cons x xs => simp [pyMax]
        · by_cases hc :
            recs.filter (fun r => pyLower (artistNameOf r) = pyLower rawArtist) = []
          · simp only [ha, hc, ne_eq, not_false_eq_true, if_true, ite_true]
            cases recs with
            | nil => exact absurd rfl hr
            | cons x xs => simp [pyMax]
          · simp only [ha, hc, ne_eq, not_false_eq_true, if_true, ite_false]
            cases hfc : recs.filter (fun r => pyLower (artistNameOf r) = pyLower rawArtist) with
            | nil => exact absurd hfc hc
            | cons x xs => simp [pyMax]

/-- C5 witness: the theorem applied at a concrete candidate list. -/
theorem c5_witness :
    pickBest "billie eilish" [c6Rec] = resolverChoiceSpec "billie eilish" [c6Rec]
    ∧ ((pickBest "billie eilish" [c6Rec]).isSome ↔ [c6Rec] ≠ []) :=
  c5_resolver_selection "billie eilish" [c6Rec]

/-! ## Claim C8: cache-key derivation -/

theorem data_append (s t : String) : (s ++ t).data = s.data ++ t.data := rfl

theorem decVal_append (l : List Char) (c : Char) :
    decVal (l ++ [c]) = decVal l * 10 + (c.toNat - 48) := by
  unfold decVal
  rw [List.foldl_append]
  rfl

theorem decDigit_toNat (d : Nat) (h : d < 10) : (decDigit d).toNat = 48 + d := by
  interval_cases d <;> decide

theorem natToDecGo_spec : ∀ fuel n, n < fuel →
    decVal (natToDecGo fuel n) = n
    ∧ (∀ c ∈ natToDecGo fuel n, ∃ d, d < 10 ∧ c = decDigit d)
    ∧ natToDecGo fuel n ≠ [] := by
  intro fuel
  induction fuel with
  | zero => intro n h; omega
  | succ fuel ih =>
    intro n h
    by_cases h10 : n < 10
    · refine ⟨?_, ?_, ?_⟩
      · simp only [natToDecGo, if_pos h10]
        unfold decVal
        simp only [List.foldl_cons, List.foldl_nil]
        rw [decDigit_toNat n h10]
        omega
      · intro c hc
        simp only [natToDecGo, if_pos h10, List.mem_singleton] at hc
        exact ⟨n, h10, hc⟩
      · simp [natToDecGo, if_pos h10]
    · have hd : n / 10 < fuel := by
        have h1 : n / 10 < n := Nat.div_lt_self (by omega) (by omega)
        omega
      obtain ⟨ih1, ih2, ih3⟩ := ih (n / 10) hd
      refine ⟨?_, ?_, ?_⟩
      · simp only [natToDecGo, if_neg h10]
        rw [decVal_append, ih1, decDigit_toNat (n % 10) (Nat.mod_lt _ (by omega))]
        have := Nat.div_add_mod n 10
        omega
      · intro c hc
        simp only [natToDecGo, if_neg h10, List.mem_append, List.mem_singleton] at hc
        rcases hc with hc | hc
        · exact ih2 c hc
        · exact ⟨n % 10, Nat.mod_lt _ (by omega), hc⟩
      · simp [natToDecGo, if_neg h10]

theorem natToDec_val (n : Nat) : decVal (natToDec n) = n :=
  (natToDecGo_spec (n + 1) n (by omega)).1

theorem natToDec_inj {m n : Nat} (h : natToDec m = natToDec n) : m = n := by
  have h1 := natToDec_val m
  rw [h, natToDec_val n] at h1
  omega

theorem colon_not_mem_natToDec (n : Nat) : ':' ∉ natToDec n := by
  intro hmem
  obtain ⟨d, hd, hc⟩ := (natToDecGo_spec (n + 1) n (by omega)).2.1 ':' hmem
  have h1 := decDigit_toNat d hd
  rw [← hc] at h1
  have h58 : (':').toNat = 58 := by decide
  omega

/-- Splitting at the first occurrence of a separator character is
unambiguous when the left parts do not contain the separator. -/
theorem append_sep_inj (sep : Char) :
    ∀ (a₁ : List Char) {b₁ : List Char} (a₂ : List Char) {b₂ : List Char},
      sep ∉ a₁ → sep ∉ a₂ → a₁ ++ sep :: b₁ = a₂ ++ sep :: b₂ →
      a₁ = a₂ ∧ b₁ = b₂ := by
  intro a₁
  induction a₁ with
  | nil =>
    intro b₁ a₂ b₂ _ h2 h
    cases a₂ with
    | nil => simpa using h
    | cons y u =>
      exfalso
      rw [List.nil_append, List.cons_append] at h
      injection h with h3 _
      exact h2 (by rw [← h3]; simp)
  | cons x t ih =>
    intro b₁ a₂ b₂ h1 h2 h
    cases a₂ with
    | nil =>
      exfalso
      rw [List.cons_append, List.nil_append] at h
      injection h with h3 _
      exact h1 (by rw [h3]; simp)
    | cons y u =>
      rw [List.cons_append, List.cons_append] at h
      injection h with h3 h4
      have h5 := ih u (fun hm => h1 (List.mem_cons_of_mem _ hm))
        (fun hm => h2 (List.mem_cons_of_mem _ hm)) h4
      exact ⟨by rw [h3, h5.1], h5.2⟩

theorem recsCacheRaw_data (limit offset : Nat) (q : String) :
    (recsCacheRaw limit offset q).data
      = natToDec limit ++ ':' :: (natToDec offset ++ ':' :: q.data) := by
  simp [recsCacheRaw, data_append]

theorem seedCacheRaw_data (rt ra : String) :
    (seedCacheRaw rt ra).data
      = (pyLower rt).data ++ '|' :: (pyLower ra).data := by
  simp [seedCacheRaw, data_append]

/-- C8 counterexample: two distinct normalized (title, artist hint) pairs
produce the same raw cache-key string, hence the same cache key for any
hash; the title containing the separator bar collides with a pair whose
artist hint absorbs the rest. -/
theorem c8_counterexample :
    seedCacheRaw "a|b" "c" = seedCacheRaw "a" "b|c"
    ∧ ("a|b", "c") ≠ (("a", "b|c") : String × String)
    ∧ pyStrip "a|b" = "a|b" ∧ pyLower "a|b" = "a|b"
    ∧ pyStrip "c" = "c" ∧ pyLower "c" = "c"
    ∧ pyStrip "a" = "a" ∧ pyLower "a" = "a"
    ∧ pyStrip "b|c" = "b|c" ∧ pyLower "b|c" = "b|c"
    ∧ hashKey "mbz:first" id (seedCacheRaw "a|b" "c")
        = hashKey "mbz:first" id (seedCacheRaw "a" "b|c") := by
  decide

/-- C8 (amended): the raw string fed to the hash is injective in
(limit, offset, query) for the recording-search cache; for the
seed-resolution cache it is injective on normalized (title, hint) pairs
provided the normalized title contains no bar character (the field
separator); with a title containing a bar, distinct pairs can collide.
Keys are then distinct whenever the hash itself is collision-free. -/
theorem c8_key_injectivity :
    (∀ (l₁ o₁ : Nat) (q₁ : String) (l₂ o₂ : Nat) (q₂ : String),
        recsCacheRaw l₁ o₁ q₁ = recsCacheRaw l₂ o₂ q₂ →
        l₁ = l₂ ∧ o₁ = o₂ ∧ q₁ = q₂)
    ∧ (∀ t₁ a₁ t₂ a₂ : String,
        '|' ∉ (pyLower (pyStrip t₁)).data →
        '|' ∉ (pyLower (pyStrip t₂)).data →
        seedCacheRaw (pyStrip t₁) (pyStrip a₁) = seedCacheRaw (pyStrip t₂) (pyStrip a₂) →
        pyLower (pyStrip t₁) = pyLower (pyStrip t₂)
        ∧ pyLower (pyStrip a₁) = pyLower (pyStrip a₂)) := by
  constructor
  · intro l₁ o₁ q₁ l₂ o₂ q₂ h
    have hd := congrArg String.data h
    rw [recsCacheRaw_data, recsCacheRaw_data] at hd
    obtain ⟨e1, e2⟩ := append_sep_inj ':' _ _
      (colon_not_mem_natToDec l₁) (colon_not_mem_natToDec l₂) hd
    obtain ⟨e3, e4⟩ := append_sep_inj ':' _ _
      (colon_not_mem_natToDec o₁) (colon_not_mem_natToDec o₂) e2
    exact ⟨natToDec_inj e1, natToDec_inj e3, String.ext e4⟩
  · intro t₁ a₁ t₂ a₂ hb1 hb2 h
    have hd := congrArg String.data h
    rw [seedCacheRaw_data, seedCacheRaw_data] at hd
    obtain ⟨e1, e2⟩ := append_sep_inj '|' _ _ hb1 hb2 hd
    exact ⟨String.ext e1, String.ext e2⟩

/-- C8 witness: the amended theorem applied at concrete keys. -/
theorem c8_witness :
    ((50 : Nat) = 50 ∧ (0 : Nat) = 0 ∧ "x" = "x")
    ∧ (pyLower (pyStrip "T") = pyLower (pyStrip "T")
        ∧ pyLower (pyStrip "A") = pyLower (pyStrip "A")) :=
  ⟨c8_key_injectivity.1 50 0 "x" 50 0 "x" rfl,
   c8_key_injectivity.2 "T" "A" "T" "A" (by decide) (by decide) rfl⟩

/-! ## Claim C10: partiality of the artist-credit access -/

/-- The (artist display name, artist grouping key) pair read by the pool
passes (views.py lines 169 to 171 and 218 to 220) from a given first
artist credit. -/
def poolArtistA (ac : AC) : String × String :=
  let an := pyOr (optStr ac.name) "Unknown Artist"
  (an, pyOr (optStr ((ac.artist.getD ⟨none⟩).id)) an)

/-- Faithful (exception-aware) pool-pass artist read. -/
def poolArtistE (rec : Recording) : Option (String × String) :=
  (acFirst rec).map poolArtistA

/-- Totalised pool-pass artist read, used by the selector definitions. -/
def poolArtist (rec : Recording) : String × String := poolArtistA (ac0 rec)

/-- A record whose `artist-credit` key is present with an empty list. -/
def c10Rec : Recording :=
  { id := none, title := some "t", artistCredit := some [],
    releaseGroup := none, tags := [], releases := none }

/-- C10: every artist-credit read (`_artist_name`, scoring, the pool
passes) is total only when a present `artist-credit` list is non-empty:
with `artist-credit` present and empty the access raises (modelled as
`none`) instead of degrading to a default, because the default `[\x7b\x7d]`
applies only to an absent key; with the key absent the default applies
and the operations succeed. -/
theorem c10_artist_credit_partiality (rec : Recording) (cx : ScoreCtx) :
    (rec.artistCredit = some [] →
      acFirst rec = none ∧ artistNameE rec = none
      ∧ scoreE cx rec = none ∧ poolArtistE rec = none)
    ∧ (rec.artistCredit = none → acFirst rec = some emptyAC)
    ∧ (rec.artistCredit ≠ some [] →
      scoreE cx rec = some (score cx rec)
      ∧ poolArtistE rec = some (poolArtist rec)) := by
  refine ⟨?_, ?_, ?_⟩
  · intro h
    have h1 : acFirst rec = none := by unfold acFirst; rw [h]; rfl
    exact ⟨h1, by unfold artistNameE; rw [h1]; rfl,
      by unfold scoreE; rw [h1]; rfl,
      by unfold poolArtistE; rw [h1]; rfl⟩
  · intro h
    unfold acFirst
    rw [h]
  · intro h
    refine ⟨scoreE_eq_of_wf cx rec h, ?_⟩
    unfold poolArtistE poolArtist
    rw [acFirst_eq_of_wf rec h]
    rfl

/-- C10 witness: the concrete empty-credit record raises everywhere, and
an absent key degrades to the default credit. -/
theorem c10_witness :
    (acFirst c10Rec = none ∧ artistNameE c10Rec = none
      ∧ scoreE c6Ctx c10Rec = none ∧ poolArtistE c10Rec = none)
    ∧ acFirst c6Rec = some emptyAC :=
  ⟨(c10_artist_credit_partiality c10Rec c6Ctx).1 rfl,
   (c10_artist_credit_partiality c6Rec c6Ctx).2.1 rfl⟩

/-! ## Claim C9: ranking (views.py line 155)

`sorted(results, key=score, reverse=True)` is Pythons Timsort: a stable
sort, descending on the key. A stable sort is extensionally determined by
sortedness plus preservation of the relative order of equal keys, so it
is modelled by the stable `List.mergeSort` under the descending
comparison. -/

/-- `sorted(l, key=key, reverse=True)`. -/
def pySortedDesc (key : α → Int) (l : List α) : List α :=
  l.mergeSort (fun a b => key b ≤ key a)

/-- C9: the ranked list is a permutation of the fetched candidates,
sorted by descending score, and candidates with equal scores keep their
relative order from the fetched list (for every score value, filtering
the ranked list to that score gives the same sequence as filtering the
input). -/
theorem c9_ranking_sorted_stable (cx : ScoreCtx) (results : List Recording) :
    (pySortedDesc (score cx) results).Perm results
    ∧ List.Pairwise (fun a b => score cx b ≤ score cx a)
        (pySortedDesc (score cx) results)
    ∧ ∀ s : Int,
        (pySortedDesc (score cx) results).filter (fun r => score cx r = s)
          = results.filter (fun r => score cx r = s) := by
  have trans : ∀ a b c : Recording,
      (decide (score cx b ≤ score cx a)) = true →
      (decide (score cx c ≤ score cx b)) = true →
      (decide (score cx c ≤ score cx a)) = true := by
    intro a b c h1 h2
    simp only [decide_eq_true_eq] at h1 h2 ⊢
    omega
  have total : ∀ a b : Recording,
      ((decide (score cx b ≤ score cx a)) || (decide (score cx a ≤ score cx b))) = true := by
    intro a b
    simp only [Bool.or_eq_true, decide_eq_true_eq]
    omega
  refine ⟨List.mergeSort_perm results _, ?_, ?_⟩
  · have h := List.sorted_mergeSort trans total results
    exact h.imp (fun hab => by simpa using hab)
  · intro s
    have hmem : ∀ x ∈ results.filter (fun r => decide (score cx r = s)),
        score cx x = s := by
      intro x hx
      have := (List.mem_filter.mp hx).2
      simpa using this
    have hp : (results.filter (fun r => decide (score cx r = s))).Pairwise
        (fun a b => (decide (score cx b ≤ score cx a)) = true) := by
      apply List.pairwise_of_forall_mem_list
      intro a ha b hb
      have h1 := hmem a ha
      have h2 := hmem b hb
      simp only [decide_eq_true_eq]
      omega
    have h2 : List.Sublist (results.filter (fun r => decide (score cx r = s)))
        (pySortedDesc (score cx) results) :=
      List.sublist_mergeSort trans total hp (List.filter_sublist results)
    have h3 : List.Sublist (results.filter (fun r => decide (score cx r = s)))
        ((pySortedDesc (score cx) results).filter (fun r => decide (score cx r = s))) := by
      have h4 := List.Sublist.filter (fun r => decide (score cx r = s)) h2
      rwa [List.filter_filter, (by
        apply List.filter_congr
        intro x _
        simp [Bool.and_self] : results.filter
          (fun r => decide (score cx r = s) && decide (score cx r = s))
            = results.filter (fun r => decide (score cx r = s)))] at h4
    have h5 : ((pySortedDesc (score cx) results).filter
          (fun r => decide (score cx r = s))).Perm
        (results.filter (fun r => decide (score cx r = s))) :=
      (List.mergeSort_perm results _).filter _
    exact (h3.eq_of_length h5.length_eq.symm).symm

/-! ## Diversity selector (views.py lines 157 to 245)

State of the pool-construction loops. `keys` is specification-only
instrumentation: it records, for each entry accepted by the primary pass,
the artist-grouping key and the (truthy) album identifier used for the
diversity caps; the executable fields mirror the Python locals `pool`,
`seen_titles`, `artist_count` and `album_count`. -/

/-- An element of the response pool (views.py lines 186 to 195). -/
structure Entry where
  id : Option String
  title : String
  artist : String
  mood : String
  genreHint : String
  coverArt : Option String
  deriving DecidableEq, Repr

/-- Context of one pool construction: the lowered seed title (line 95),
the raw mood and genre hint, and the cover-art collaborator. -/
structure SelCtx where
  seedTitle : String
  mood : String
  genreHint : String
  cover : Option String → Option String

structure SelSt where
  pool : List Entry
  seen : List String
  artistCount : List (String × Nat)
  albumCount : List (String × Nat)
  keys : List (String × Option String)

def emptySt : SelSt := ⟨[], [], [], [], []⟩

/-- `d.get(k, 0)` on a counter dictionary. -/
def cnt : List (String × Nat) → String → Nat
  | [], _ => 0
  | (k, v) :: rest, q => if q = k then v else cnt rest q

/-- `d[k] = d.get(k, 0) + 1`. -/
def bump (m : List (String × Nat)) (k : String) : List (String × Nat) :=
  (k, cnt m k + 1) :: m

/-- `title = (rec.get("title") or "").strip()` (line 162). -/
def recTitle (rec : Recording) : String := pyStrip (optStr rec.title)

/-- `tkey = title.lower()` (line 165). -/
def recTKey (rec : Recording) : String := pyLower (recTitle rec)

/-- `rec.get("release-group", \x7b\x7d).get("id") if rec.get("release-group")
else None` (lines 172 to 176). -/
def albumIdOf (rec : Recording) : Option String := rec.releaseGroup.bind RG.id

/-- A present but empty-string identifier is falsy in Python wherever the
album id is tested (`if album_id ...`). -/
def truthyStr : Option String → Option String
  | some s => if s = "" then none else some s
  | none => none

def albumKeyOf (rec : Recording) : Option String := truthyStr (albumIdOf rec)

/-- The dictionary appended to the pool (lines 186 to 195 and 228 to 237). -/
def mkEntry (cx : SelCtx) (rec : Recording) : Entry :=
  { id := rec.id,
    title := recTitle rec,
    artist := (poolArtist rec).1,
    mood := pyOr cx.mood "unknown",
    genreHint := pyOr cx.genreHint "unknown",
    coverArt := cx.cover (albumIdOf rec) }

/-- One iteration of the primary diversity loop (lines 161 to 204,
without the size-cap break, which `primaryPass` applies). -/
def pstep (cx : SelCtx) (rec : Recording) (st : SelSt) : SelSt :=
  if recTitle rec = "" then st
  else if recTKey rec = cx.seedTitle ∨ recTKey rec ∈ st.seen then st
  else if 2 ≤ cnt st.artistCount (poolArtist rec).2 then st
  else if (albumKeyOf rec).elim false (fun a => 2 ≤ cnt st.albumCount a) then st
  else
    { pool := st.pool ++ [mkEntry cx rec],
      seen := st.seen ++ [recTKey rec],
      artistCount := bump st.artistCount (poolArtist rec).2,
      albumCount :=
        match albumKeyOf rec with
        | some a => bump st.albumCount a
        | none => st.albumCount,
      keys := st.keys ++ [((poolArtist rec).2, albumKeyOf rec)] }

/-- The primary diversity pass: iterate `pstep`, stopping once the pool
holds 30 entries (the `break` at lines 203 to 204, reached only directly
after an acceptance). -/
def primaryPass (cx : SelCtx) : List Recording → SelSt → SelSt
  | [], st => st
  | r :: rs, st =>
    let st' := pstep cx r st
    if 30 ≤ st'.pool.length then st' else primaryPass cx rs st'

/-- One iteration of the relaxation loop (lines 208 to 238): only the
empty-title and duplicate/seed-title rules apply. -/
def rstep (cx : SelCtx) (rec : Recording) (st : SelSt) : SelSt :=
  if recTitle rec = "" then st
  else if recTKey rec = cx.seedTitle ∨ recTKey rec ∈ st.seen then st
  else
    { st with
      pool := st.pool ++ [mkEntry cx rec],
      seen := st.seen ++ [recTKey rec] }

/-- The relaxation pass: re-scan the ranked list, stopping as soon as the
pool holds 5 entries (the check at lines 209 to 210 runs at loop top). -/
def relaxPass (cx : SelCtx) : List Recording → SelSt → SelSt
  | [], st => st
  | r :: rs, st =>
    if 5 ≤ st.pool.length then st else relaxPass cx rs (rstep cx r st)

/-- The full diversity selector (lines 157 to 238): the primary pass,
then the relaxation pass when fewer than 5 entries survived. -/
def selectPool (cx : SelCtx) (ranked : List Recording) : List Entry :=
  let st := primaryPass cx ranked emptySt
  if st.pool.length < 5 then (relaxPass cx ranked st).pool else st.pool

/-- The case-insensitive title of a pool entry. -/
def entryTitleKey (e : Entry) : String := pyLower e.title

/-! ## Claim C1: pool title invariants -/

/-- Invariant of both pool loops: pool titles are pairwise distinct
case-insensitively, tracked in `seen`, never the seed title, and stored
stripped and non-empty. -/
def SelInv (cx : SelCtx) (st : SelSt) : Prop :=
  (st.pool.map entryTitleKey).Nodup
  ∧ (∀ e ∈ st.pool, entryTitleKey e ∈ st.seen)
  ∧ (∀ e ∈ st.pool, entryTitleKey e ≠ cx.seedTitle)
  ∧ (∀ e ∈ st.pool, e.title ≠ "" ∧ pyStrip e.title = e.title)

theorem emptySt_inv (cx : SelCtx) : SelInv cx emptySt := by
  refine ⟨by simp [emptySt], by simp [emptySt], by simp [emptySt], by simp [emptySt]⟩

theorem accept_inv (cx : SelCtx) (rec : Recording) (st : SelSt)
    (h : SelInv cx st)
    (h1 : recTitle rec ≠ "")
    (h2 : ¬(recTKey rec = cx.seedTitle ∨ recTKey rec ∈ st.seen))
    (pool' : List Entry) (seen' : List String)
    (hpool : pool' = st.pool ++ [mkEntry cx rec])
    (hseen : seen' = st.seen ++ [recTKey rec]) :
    (pool'.map entryTitleKey).Nodup
    ∧ (∀ e ∈ pool', entryTitleKey e ∈ seen')
    ∧ (∀ e ∈ pool', entryTitleKey e ≠ cx.seedTitle)
    ∧ (∀ e ∈ pool', e.title ≠ "" ∧ pyStrip e.title = e.title) := by
  obtain ⟨hnd, hsn, hsd, htl⟩ := h
  push_neg at h2
  obtain ⟨h2a, h2b⟩ := h2
  have hkey : entryTitleKey (mkEntry cx rec) = recTKey rec := rfl
  subst hpool hseen
  refine ⟨?_, ?_, ?_, ?_⟩
  · rw [List.map_append, List.nodup_append]
    refine ⟨hnd, by simp, ?_⟩
    intro a ha hmem
    simp only [List.map_cons, List.map_nil, List.mem_cons, List.not_mem_nil,
      or_false, hkey] at hmem
    obtain ⟨e, he, hea⟩ := List.mem_map.mp ha
    apply h2b
    rw [← hmem, ← hea]
    exact hsn e he
  · intro e he
    rcases List.mem_append.mp he with he | he
    · exact List.mem_append_left _ (hsn e he)
    · simp only [List.mem_singleton] at he
      subst he
      rw [hkey]
      exact List.mem_append_right _ (by simp)
  · intro e he
    rcases List.mem_append.mp he with he | he
    · exact hsd e he
    · simp only [List.mem_singleton] at he
      subst he
      rw [hkey]
      exact h2a
  · intro e he
    rcases List.mem_append.mp he with he | he
    · exact htl e he
    · simp only [List.mem_singleton] at he
      subst he
      refine ⟨h1, ?_⟩
      show pyStrip (recTitle rec) = recTitle rec
      exact pyStrip_idem (optStr rec.title)

theorem pstep_inv (cx : SelCtx) (rec : Recording) (st : SelSt)
    (h : SelInv cx st) : SelInv cx (pstep cx rec st) := by
  unfold pstep
  split_ifs with h1 h2 h3 h4
  · exact h
  · exact h
  · exact h
  · exact h
  · exact accept_inv cx rec st h h1 h2 _ _ rfl rfl

theorem rstep_inv (cx : SelCtx) (rec : Recording) (st : SelSt)
    (h : SelInv cx st) : SelInv cx (rstep cx rec st) := by
  unfold rstep
  split_ifs with h1 h2
  · exact h
  · exact h
  · exact accept_inv cx rec st h h1 h2 _ _ rfl rfl

theorem primaryPass_inv (cx : SelCtx) :
    ∀ (l : List Recording) (st : SelSt), SelInv cx st →
      SelInv cx (primaryPass cx l st) := by
  intro l
  induction l with
  | nil => intro st h; exact h
  | cons r rs ih =>
    intro st h
    simp only [primaryPass]
    split
    · exact pstep_inv cx r st h
    · exact ih _ (pstep_inv cx r st h)

theorem relaxPass_inv (cx : SelCtx) :
    ∀ (l : List Recording) (st : SelSt), SelInv cx st →
      SelInv cx (relaxPass cx l st) := by
  intro l
  induction l with
  | nil => intro st h; exact h
  | cons r rs ih =>
    intro st h
    simp only [relaxPass]
    split
    · exact h
    · exact ih _ (rstep_inv cx r st h)

theorem selectPool_inv (cx : SelCtx) (ranked : List Recording) :
    ∃ st : SelSt, selectPool cx ranked = st.pool ∧ SelInv cx st := by
  unfold selectPool
  by_cases hlen : (primaryPass cx ranked emptySt).pool.length < 5
  · refine ⟨relaxPass cx ranked (primaryPass cx ranked emptySt), ?_,
      relaxPass_inv cx ranked _ (primaryPass_inv cx ranked emptySt (emptySt_inv cx))⟩
    simp only [hlen, if_true]
  · refine ⟨primaryPass cx ranked emptySt, ?_,
      primaryPass_inv cx ranked emptySt (emptySt_inv cx)⟩
    simp only [hlen, if_false]

/-- C1: in every pool the selector returns, whether built by the primary
pass alone or extended by the relaxation pass, no two entries share a
case-insensitive title, no entry title is empty after stripping, and no
entry title equals the (case-insensitive) seed title. -/
theorem c1_pool_title_invariants (cx : SelCtx) (ranked : List Recording) :
    ((selectPool cx ranked).map entryTitleKey).Nodup
    ∧ (∀ e ∈ selectPool cx ranked, pyStrip e.title ≠ "")
    ∧ (∀ e ∈ selectPool cx ranked, entryTitleKey e ≠ cx.seedTitle) := by
  obtain ⟨st, hst, hnd, hsn, hsd, htl⟩ := selectPool_inv cx ranked
  rw [hst]
  refine ⟨hnd, ?_, hsd⟩
  intro e he
  obtain ⟨hne, hfix⟩ := htl e he
  rw [hfix]
  exact hne

/-! ## Claim C2: primary-pass diversity caps -/

/-- Number of accepted entries whose artist-grouping key is `k`. -/
def keyCount (keys : List (String × Option String)) (k : String) : Nat :=
  (keys.filter (fun p => p.1 = k)).length

/-- Number of accepted entries whose (truthy) album identifier is `a`. -/
def albumKeyCount (keys : List (String × Option String)) (a : String) : Nat :=
  (keys.filter (fun p => p.2 = some a)).length

/-- Invariant of the primary pass: the counter dictionaries agree with
the per-key counts over the accepted entries, and both caps hold. -/
def CntInv (st : SelSt) : Prop :=
  st.keys.length = st.pool.length
  ∧ (∀ k, cnt st.artistCount k = keyCount st.keys k ∧ keyCount st.keys k ≤ 2)
  ∧ (∀ a, cnt st.albumCount a = albumKeyCount st.keys a ∧ albumKeyCount st.keys a ≤ 2)

theorem cnt_bump (m : List (String × Nat)) (k q : String) :
    cnt (bump m k) q = if q = k then cnt m k + 1 else cnt m q := rfl

theorem keyCount_append (keys : List (String × Option String))
    (k₀ : String) (o : Option String) (k : String) :
    keyCount (keys ++ [(k₀, o)]) k = keyCount keys k + (if k₀ = k then 1 else 0) := by
  unfold keyCount
  rw [List.filter_append, List.length_append]
  congr 1
  by_cases h : k₀ = k <;> simp [List.filter_cons, h]

theorem albumKeyCount_append (keys : List (String × Option String))
    (k₀ : String) (o : Option String) (a : String) :
    albumKeyCount (keys ++ [(k₀, o)]) a
      = albumKeyCount keys a + (if o = some a then 1 else 0) := by
  unfold albumKeyCount
  rw [List.filter_append, List.length_append]
  congr 1
  by_cases h : o = some a <;> simp [List.filter_cons, h]

theorem emptySt_cnt : CntInv emptySt := by
  refine ⟨rfl, ?_, ?_⟩
  · intro k
    exact ⟨rfl, by simp [keyCount, emptySt]⟩
  · intro a
    exact ⟨rfl, by simp [albumKeyCount, emptySt]⟩

theorem pstep_cnt (cx : SelCtx) (rec : Recording) (st : SelSt)
    (h : CntInv st) : CntInv (pstep cx rec st) := by
  unfold pstep
  split_ifs with h1 h2 h3 h4
  · exact h
  · exact h
  · exact h
  · exact h
  · obtain ⟨hlen, hart, halb⟩ := h
    refine ⟨?_, ?_, ?_⟩
    · simp [hlen]
    · intro k
      by_cases hk : k = (poolArtist rec).2
      · subst hk
        rw [cnt_bump, keyCount_append, if_pos rfl, if_pos rfl]
        have hc := (hart (poolArtist rec).2).1
        have h5 := (hart (poolArtist rec).2).2
        constructor
        · rw [hc]
        · rw [← hc]
          omega
      · have hk2 : ¬ ((poolArtist rec).2 = k) := fun e => hk e.symm
        rw [cnt_bump, keyCount_append, if_neg hk, if_neg hk2]
        simpa using hart k
    · intro a
      cases hak : albumKeyOf rec with
      | none =>
        simp only [hak]
        rw [albumKeyCount_append, if_neg (by simp)]
        simpa using halb a
      | some b =>
        have h5 : ¬ (2 ≤ cnt st.albumCount b) := by
          rw [hak] at h4
          simpa using h4
        simp only [hak]
        by_cases ha : a = b
        · subst ha
          rw [cnt_bump, if_pos rfl, albumKeyCount_append, if_pos rfl]
          have h6 := (halb a).1
          constructor
          · rw [h6]
          · rw [← h6]
            omega
        · have ha2 : ¬ ((some b : Option String) = some a) := by
            intro e
            exact ha (Option.some.inj e).symm
          rw [cnt_bump, if_neg ha, albumKeyCount_append, if_neg ha2]
          simpa using halb a

theorem primaryPass_cnt (cx : SelCtx) :
    ∀ (l : List Recording) (st : SelSt), CntInv st →
      CntInv (primaryPass cx l st) := by
  intro l
  induction l with
  | nil => intro st h; exact h
  | cons r rs ih =>
    intro st h
    simp only [primaryPass]
    split
    · exact pstep_cnt cx r st h
    · exact ih _ (pstep_cnt cx r st h)

/-- C2: over any ranked candidate list, in the pool built by the primary
(non-relaxed) diversity pass each artist-grouping key (stable identifier
when present and truthy, else the display name) contributes at most 2
accepted entries, and each truthy release-group identifier contributes at
most 2 accepted entries; `keys` records one grouping pair per accepted
pool entry. -/
theorem c2_primary_diversity_caps (cx : SelCtx) (ranked : List Recording) :
    (primaryPass cx ranked emptySt).keys.length
      = (primaryPass cx ranked emptySt).pool.length
    ∧ ∀ k a : String,
        keyCount (primaryPass cx ranked emptySt).keys k ≤ 2
        ∧ albumKeyCount (primaryPass cx ranked emptySt).keys a ≤ 2 := by
  obtain ⟨hlen, hart, halb⟩ := primaryPass_cnt cx ranked emptySt emptySt_cnt
  exact ⟨hlen, fun k a => ⟨(hart k).2, (halb a).2⟩⟩

/-! ## Claim C3: the sampler (views.py lines 247 to 254) -/

/-- Modelled from the spec: the Python `random` module used at lines 248
to 252 is library code, not part of src/. Per the spec the generator is
"a pseudo-random generator seeded deterministically from the preference
seed string"; it is modelled as a congruential stream whose state is a
deterministic function of the seed string. -/
def seedNat (s : String) : Nat :=
  s.data.foldl (fun a c => a * 31 + c.toNat + 1) 7

/-- Modelled from the spec: one step of the deterministic generator. -/
def lcgNext (x : Nat) : Nat := (x * 1103515245 + 12345) % 2147483648

/-- Modelled from the spec: `rnd.shuffle` "must be a uniform permutation
(e.g. Fisher-Yates)"; this is the draw-without-replacement form of the
Fisher-Yates shuffle, fuel-structural so it evaluates by reduction. -/
def shuffleGo : Nat → Nat → List α → List α
  | _, 0, l => l
  | st, fuel + 1, l =>
    match l with
    | [] => []
    | x :: xs =>
      let j := lcgNext st % (xs.length + 1)
      (x :: xs).getD j x :: shuffleGo (lcgNext st) fuel ((x :: xs).eraseIdx j)

/-- Shuffle seeded from the seed string (`random.Random(str(seed))` then
`rnd.shuffle`). -/
def pyShuffle (s : String) (l : List α) : List α :=
  shuffleGo (seedNat s) l.length l

/-- Lines 247 to 254: with `randomize`, shuffle the first 10 pool entries
(`pool[:10] if len(pool) > 10 else pool`) with the generator seeded from
`str(seed)` and keep the first 5; when no seed string is given the
generator is seeded from OS entropy (the `entropy` argument); without
`randomize`, keep the first 5 in ranked order. -/
def sampleTop (randomize : Bool) (seed : Option String) (entropy : Nat)
    (pool : List α) : List α :=
  if randomize then
    match seed with
    | some s => (pyShuffle s (pool.take 10)).take 5
    | none => (shuffleGo entropy (pool.take 10).length (pool.take 10)).take 5
  else pool.take 5

theorem cons_eraseIdx_perm (l : List α) (j : Nat) (hj : j < l.length) (d : α) :
    (l.getD j d :: l.eraseIdx j).Perm l := by
  have hget : l.getD j d = l[j] := by
    rw [List.getD_eq_getElem?_getD, List.getElem?_eq_getElem hj]
    rfl
  rw [List.eraseIdx_eq_take_drop_succ, hget]
  have h1 : l.take j ++ l[j] :: l.drop (j + 1) = l := by
    conv_rhs => rw [← List.take_append_drop j l]
    congr 1
    exact List.getElem_cons_drop l j hj
  calc (l[j] :: (l.take j ++ l.drop (j + 1))).Perm
        (l.take j ++ l[j] :: l.drop (j + 1)) := List.perm_middle.symm
    _ = l := h1

theorem shuffleGo_perm :
    ∀ (fuel st : Nat) (l : List α), l.length ≤ fuel →
      (shuffleGo st fuel l).Perm l := by
  intro fuel
  induction fuel with
  | zero =>
    intro st l h
    have : l = [] := List.eq_nil_of_length_eq_zero (by omega)
    subst this
    exact List.Perm.refl _
  | succ fuel ih =>
    intro st l h
    cases l with
    | nil => simp [shuffleGo]
    | cons x xs =>
      simp only [shuffleGo]
      have hj : lcgNext st % (xs.length + 1) < (x :: xs).length := by
        simp only [List.length_cons]
        exact Nat.mod_lt _ (by omega)
      have hlen : ((x :: xs).eraseIdx (lcgNext st % (xs.length + 1))).length ≤ fuel := by
        rw [List.length_eraseIdx]
        simp only [hj, if_true]
        simp only [List.length_cons] at h ⊢
        omega
      exact (List.Perm.cons _ (ih (lcgNext st) _ hlen)).trans
        (cons_eraseIdx_perm (x :: xs) _ hj x)

theorem pyShuffle_perm (s : String) (l : List α) : (pyShuffle s l).Perm l :=
  shuffleGo_perm l.length (seedNat s) l (Nat.le_refl _)

/-- C3: with `randomize` and a non-empty seed string the sampler is a
deterministic function of the pool and the seed string alone: it takes
the first 10 pool elements, applies the seeded shuffle (a permutation of
those elements), and returns the first 5 of the shuffled sequence; two
runs on the same pool and seed yield identical output. -/
theorem c3_sampler_deterministic {α : Type} (pool : List α) (s : String)
    (entropy₁ entropy₂ : Nat) (h : s ≠ "") :
    sampleTop true (some s) entropy₁ pool = sampleTop true (some s) entropy₂ pool
    ∧ sampleTop true (some s) entropy₁ pool = (pyShuffle s (pool.take 10)).take 5
    ∧ (pyShuffle s (pool.take 10)).Perm (pool.take 10) := by
  refine ⟨rfl, rfl, pyShuffle_perm s (pool.take 10)⟩

/-- C3 witness: the theorem applied at a concrete pool and seed, with two
different entropy values standing for two distinct runs. -/
theorem c3_witness :
    sampleTop true (some "42") 11 [0, 1, 2, 3] = sampleTop true (some "42") 99 [0, 1, 2, 3]
    ∧ sampleTop true (some "42") 11 [0, 1, 2, 3]
        = (pyShuffle "42" ([0, 1, 2, 3].take 10)).take 5
    ∧ (pyShuffle "42" ([0, 1, 2, 3].take 10)).Perm ([0, 1, 2, 3].take 10) :=
  c3_sampler_deterministic [0, 1, 2, 3] "42" 11 99 (by decide)

end NextTrack
